import Mathlib

/-!
# Verification of the TinyEKF Python repository

Shallow embedding of `src/python/tinyekf/__init__.py`.

Modelling conventions:
* numpy 2-D arrays (`np.zeros((r,c))`, `np.eye`, ...) are modelled as
  `List (List ℚ)` in row-major order; real numbers are modelled exactly
  as rationals (floating-point rounding is out of scope).
* Python exceptions are modelled by the `PyErr` type; `exit(0)` (which
  raises `SystemExit` and terminates the host process) is `PyErr.systemExit`.
* Since Python mutation persists after an exception is raised mid-`step`,
  the embedded `EKF_step` reports, together with the error, the state of
  the filter object at the moment the exception escaped (`StepResult.err`).
* The four abstract-method slots of class `EKF` (`f`, `getF`, `h`, `getH`)
  are modelled as `Option`-valued callbacks: `none` means the implementing
  class did not override the method, so calling it raises
  `NotImplementedError` (the `__metaclass__ = ABCMeta` line is inert under
  Python 3, so nothing prevents instantiation without the overrides).
-/

/-- A numpy 2-D array of rationals, as a list of rows. -/
abbrev NPArray := List (List ℚ)

/-- Python exception outcomes relevant to the embedded code. -/
inductive PyErr where
  | notImplementedError
  | valueError
  | indexError
  | systemExit
deriving DecidableEq, Repr

/-- `arr.shape[0]`. -/
def rowsOf (M : NPArray) : Nat := M.length

/-- `arr.shape[1]` (numpy arrays are rectangular, so the first row's length). -/
def colsOf (M : NPArray) : Nat := (M.headD []).length

/-- Element read `arr[i][j]` (0 outside the array; all in-range uses match numpy). -/
def entry (M : NPArray) (i j : Nat) : ℚ := (M.getD i []).getD j 0

/-- Build an `r × c` array from an entry function. -/
def mkMat (r c : Nat) (g : Nat → Nat → ℚ) : NPArray :=
  (List.range r).map fun i => (List.range c).map fun j => g i j

/-- `np.zeros((n,1))` — the zero column vector `_Vector(n)`. -/
def npZeros (n : Nat) : NPArray := mkMat n 1 fun _ _ => 0

/-- Total matrix product (the shape-correct core of `np.dot`). -/
def mulT (A B : NPArray) : NPArray :=
  mkMat (rowsOf A) (colsOf B) fun i j =>
    ((List.range (colsOf A)).map fun k => entry A i k * entry B k j).sum

/-- `_Matrix.transpose` (`self.data.T`). -/
def npTranspose (A : NPArray) : NPArray :=
  mkMat (colsOf A) (rowsOf A) fun i j => entry A j i

/-- `_Matrix.__mul__` with a scalar operand (`new.data *= other`). -/
def npSmul (A : NPArray) (c : ℚ) : NPArray := A.map (·.map (· * c))

/-- `_Matrix.copy` (`np.copy`): value semantics, so the identity here. -/
def npCopy (A : NPArray) : NPArray := A

/-- `_Matrix.asarray` (`np.asarray(self.data[:,0])`): the first column. -/
def npAsarray (A : NPArray) : List ℚ := A.map fun row => row.getD 0 0

/-- numpy broadcasting of one axis: the two extents must agree or one be 1. -/
def bAxis (a b : Nat) : Option Nat :=
  if a = b ∨ a = 1 ∨ b = 1 then some (max a b) else none

/-- Index adjustment along a broadcast axis of extent `n`. -/
def bidx (n i : Nat) : Nat := if n = 1 then 0 else i

/-- Elementwise combination on the broadcast shape `Rr × Cc`. -/
def ewiseB (op : ℚ → ℚ → ℚ) (A B : NPArray) (Rr Cc : Nat) : NPArray :=
  mkMat Rr Cc fun i j =>
    op (entry A (bidx (rowsOf A) i) (bidx (colsOf A) j))
       (entry B (bidx (rowsOf B) i) (bidx (colsOf B) j))

/-- `_Matrix.__add__` (`self.data + other.data`, numpy broadcasting rules). -/
def npAdd (A B : NPArray) : Except PyErr NPArray :=
  match bAxis (rowsOf A) (rowsOf B), bAxis (colsOf A) (colsOf B) with
  | some Rr, some Cc => .ok (ewiseB (· + ·) A B Rr Cc)
  | _, _ => .error .valueError

/-- `_Matrix.__sub__` (`self.data - other.data`, numpy broadcasting rules). -/
def npSub (A B : NPArray) : Except PyErr NPArray :=
  match bAxis (rowsOf A) (rowsOf B), bAxis (colsOf A) (colsOf B) with
  | some Rr, some Cc => .ok (ewiseB (· - ·) A B Rr Cc)
  | _, _ => .error .valueError

/-- `_Matrix.__mul__` with a matrix operand: `np.dot`, which requires the
    inner dimensions to agree and raises `ValueError` otherwise. -/
def npDot (A B : NPArray) : Except PyErr NPArray :=
  if colsOf A = rowsOf B then .ok (mulT A B) else .error .valueError

/-- Remove the `j`-th entry of a row. -/
def dropCol (j : Nat) (row : List ℚ) : List ℚ := row.take j ++ row.drop (j + 1)

/-- Determinant by Laplace expansion along the first row
    (used only to give `npInvert` numpy's exact-arithmetic semantics:
    `np.linalg.inv` succeeds exactly on square non-singular input). -/
def detL : NPArray → ℚ
  | [] => 1
  | r :: rest =>
      ((List.range r.length).map fun j =>
        (-1 : ℚ) ^ j * r.getD j 0 * detL (rest.map (dropCol j))).sum
termination_by M => M.length
decreasing_by simp

/-- Minor of `M` with row `i` and column `j` removed. -/
def minorM (M : NPArray) (i j : Nat) : NPArray :=
  (M.take i ++ M.drop (i + 1)).map (dropCol j)

/-- `np.linalg.inv`: on a square non-singular matrix, the (unique) inverse,
    here via the adjugate formula; `none` models the `LinAlgError` raised on a
    non-square or singular argument. -/
def npInv (S : NPArray) : Option NPArray :=
  if colsOf S = rowsOf S ∧ detL S ≠ 0 then
    some (mkMat (rowsOf S) (rowsOf S) fun i j =>
      (-1 : ℚ) ^ (i + j) * detL (minorM S j i) / detL S)
  else none

/-- `_Matrix.invert`: `np.linalg.inv` inside `try/except`; on failure the
    exception handler prints and calls `exit(0)`, i.e. raises `SystemExit`. -/
def npInvert (S : NPArray) : Except PyErr NPArray :=
  match npInv S with
  | some A => .ok A
  | none => .error .systemExit

/-- `_Matrix.eye(n, m=0)`: the explicit argument `m = 0` (also the default)
    is replaced by `n`, then `np.eye(n, m)` is returned. -/
def npEye (n : Nat) (m : Nat := 0) : NPArray :=
  let m' := if m = 0 then n else m
  mkMat n m' fun i j => if j = i then 1 else 0

/-- `_Vector.fromTuple`: an `(len t, 1)` column holding the entries of `t`. -/
def npFromTuple (t : List ℚ) : NPArray := mkMat t.length 1 fun i _ => t.getD i 0

/-- numpy index normalization on an axis of extent `n`: a negative index
    counts from the end; out of `[-n, n)` is an `IndexError`. -/
def normIdx (n : Nat) (i : ℤ) : Option Nat :=
  if 0 ≤ i ∧ i < (n : ℤ) then some i.toNat
  else if -(n : ℤ) ≤ i ∧ i < 0 then some (i + n).toNat
  else none

/-- `_Matrix.__getitem__` with a `(row, column)` key (`self.data[key]`). -/
def npGetItem (M : NPArray) (i j : ℤ) : Except PyErr ℚ :=
  match normIdx (rowsOf M) i, normIdx (colsOf M) j with
  | some a, some b => .ok (entry M a b)
  | _, _ => .error .indexError

/-- `_Matrix.__setitem__` with a `(row, column)` key (`self.data[key] = v`). -/
def npSetItem (M : NPArray) (i j : ℤ) (v : ℚ) : Except PyErr NPArray :=
  match normIdx (rowsOf M) i, normIdx (colsOf M) j with
  | some a, some b => .ok (M.set a ((M.getD a []).set b v))
  | _, _ => .error .indexError

/-! ## The EKF class -/

/-- The four abstract-method slots of class `EKF`; `none` models an
    implementing class that did not override the method, so that a call
    reaches the base body `raise NotImplementedError()`. -/
structure EKFModel where
  f : Option (NPArray → NPArray)
  getF : Option (NPArray → NPArray)
  h : Option (NPArray → NPArray)
  getH : Option (NPArray → NPArray)

/-- The instance attributes of an `EKF` object. -/
structure EKFState where
  x : NPArray
  P_pre : Option NPArray
  P_post : NPArray
  F : NPArray
  H : NPArray
  Q : NPArray
  R : NPArray
  I : NPArray
deriving DecidableEq, Repr

/-- Callback invocations, recorded in order by the embedded constructor. -/
inductive EKFCall where
  | callF
  | callGetF
  | callH
  | callGetH
deriving DecidableEq, Repr

/-- `EKF.__init__(n, m, pval, qval, rval)`.  Attribute assignments run in
    source order: `P_pre = None`; `x = _Vector(n)`; `P_post = eye(n)*pval`;
    `F = getF(x)`; `H = getH(x)`; `Q = eye(n)*qval`; `R = eye(m)*rval`;
    `I = eye(n)`.  A missing `getF`/`getH` override raises
    `NotImplementedError` out of the constructor.  The returned list records
    every callback invocation the constructor performs, in order. -/
def EKF_init (mdl : EKFModel) (n m : Nat) (pval qval rval : ℚ) :
    Except PyErr (EKFState × List EKFCall) :=
  let x0 := npZeros n
  let Ppost0 := npSmul (npEye n) pval
  match mdl.getF with
  | none => .error .notImplementedError
  | some gF =>
    let F0 := gF x0
    match mdl.getH with
    | none => .error .notImplementedError
    | some gH =>
      let H0 := gH x0
      .ok ({ x := x0, P_pre := none, P_post := Ppost0, F := F0, H := H0,
             Q := npSmul (npEye n) qval, R := npSmul (npEye m) rval,
             I := npEye n }, [.callGetF, .callGetH])

/-- Result of `EKF.step`: either the updated object together with the
    returned flat state, or an escaped exception together with the state of
    the object at the moment the exception was raised (Python mutations made
    earlier in the call persist). -/
inductive StepResult where
  | ok (s : EKFState) (ret : List ℚ)
  | err (s : EKFState) (e : PyErr)
deriving DecidableEq, Repr

/-- `EKF.step(z)`, transcribed statement by statement with Python's
    left-to-right evaluation order:
    `x = fromData(f(x.data))`;
    `P_pre = F * P_post * F.transpose() + Q`; `P_post = P_pre.copy()`;
    `G = (P_pre * H.transpose()) * (H * P_pre * H.transpose() + R).invert()`;
    `x += G * (fromTuple(z) - fromData(h(x.data)))`;
    `P_post = (I - G * H) * P_pre`;
    `return x.asarray()`. -/
def EKF_step (mdl : EKFModel) (s : EKFState) (z : List ℚ) : StepResult :=
  match mdl.f with
  | none => .err s .notImplementedError
  | some f0 =>
    let s1 : EKFState := { s with x := f0 s.x }
    match npDot s.F s.P_post with
    | .error e => .err s1 e
    | .ok a1 =>
      match npDot a1 (npTranspose s.F) with
      | .error e => .err s1 e
      | .ok a2 =>
        match npAdd a2 s.Q with
        | .error e => .err s1 e
        | .ok Ppre =>
          let s3 : EKFState := { s1 with P_pre := some Ppre, P_post := npCopy Ppre }
          match npDot Ppre (npTranspose s.H) with
          | .error e => .err s3 e
          | .ok t1 =>
            match npDot s.H Ppre with
            | .error e => .err s3 e
            | .ok b1 =>
              match npDot b1 (npTranspose s.H) with
              | .error e => .err s3 e
              | .ok b2 =>
                match npAdd b2 s.R with
                | .error e => .err s3 e
                | .ok S =>
                  match npInvert S with
                  | .error e => .err s3 e
                  | .ok Sinv =>
                    match npDot t1 Sinv with
                    | .error e => .err s3 e
                    | .ok G =>
                      let zt := npFromTuple z
                      match mdl.h with
                      | none => .err s3 .notImplementedError
                      | some h0 =>
                        match npSub zt (h0 s3.x) with
                        | .error e => .err s3 e
                        | .ok innov =>
                          match npDot G innov with
                          | .error e => .err s3 e
                          | .ok corr =>
                            match npAdd s3.x corr with
                            | .error e => .err s3 e
                            | .ok x2 =>
                              let s4 : EKFState := { s3 with x := x2 }
                              match npDot G s.H with
                              | .error e => .err s4 e
                              | .ok gh =>
                                match npSub s.I gh with
                                | .error e => .err s4 e
                                | .ok igh =>
                                  match npDot igh Ppre with
                                  | .error e => .err s4 e
                                  | .ok Pp2 =>
                                    .ok { s4 with P_post := Pp2 } (npAsarray x2)

/-! ## Spec-side step (for the refinement claim)

Transcribed from the five numbered effects of §4.2 of the specification,
using the total (shape-correct) matrix operations. -/

/-- Elementwise sum on the left operand's shape (spec: identical shapes). -/
def addT (A B : NPArray) : NPArray :=
  mkMat (rowsOf A) (colsOf A) fun i j => entry A i j + entry B i j

/-- Elementwise difference on the left operand's shape. -/
def subT (A B : NPArray) : NPArray :=
  mkMat (rowsOf A) (colsOf A) fun i j => entry A i j - entry B i j

/-- The `step(z)` contract of §4.2, word for word:
    1. `x ← f(x)`;
    2. `P_pre ← F·P_post·Fᵗ + Q`; `P_post ← copy(P_pre)`;
    3. `S ← H·P_pre·Hᵗ + R` (requires `S` invertible); `G ← P_pre·Hᵗ·S⁻¹`;
    4. `x ← x + G·(z − h(x))`;
    5. `P_post ← (I − G·H)·P_pre`;
    returning the updated `x` as a flat ordered sequence of scalars.
    The result quadruple is `(x, P_pre, P_post, returned sequence)`. -/
def stepSpec (f0 h0 : NPArray → NPArray) (F H Q R Iden x Ppost : NPArray)
    (z : List ℚ) : Option (NPArray × NPArray × NPArray × List ℚ) :=
  let x1 := f0 x
  let Ppre := addT (mulT (mulT F Ppost) (npTranspose F)) Q
  let _Ppost1 := npCopy Ppre
  let S := addT (mulT (mulT H Ppre) (npTranspose H)) R
  match npInv S with
  | none => none
  | some Sinv =>
    let G := mulT (mulT Ppre (npTranspose H)) Sinv
    let x2 := addT x1 (mulT G (subT (npFromTuple z) (h0 x1)))
    let Pp2 := mulT (subT Iden (mulT G H)) Ppre
    some (x2, Ppre, Pp2, npAsarray x2)

/-! ## Basic lemmas about the substrate -/

theorem rowsOf_mkMat (r c : Nat) (g : Nat → Nat → ℚ) : rowsOf (mkMat r c g) = r := by
  simp [mkMat, rowsOf]

theorem headD_map_range {α : Type} (n : Nat) (f : Nat → α) (d : α) (hn : 0 < n) :
    (((List.range n).map f).headD d) = f 0 := by
  cases n with
  | zero => omega
  | succ k => simp [List.range_succ_eq_map]

theorem colsOf_mkMat (r c : Nat) (g : Nat → Nat → ℚ) (hr : 0 < r) :
    colsOf (mkMat r c g) = c := by
  unfold colsOf mkMat
  rw [headD_map_range r _ _ hr]
  simp

theorem getD_map_range {α : Type} (n : Nat) (f : Nat → α) (d : α) (i : Nat) (hi : i < n) :
    ((List.range n).map f).getD i d = f i := by
  rw [List.getD_eq_getElem?_getD, List.getElem?_map, List.getElem?_range hi]
  rfl

theorem entry_mkMat (r c : Nat) (g : Nat → Nat → ℚ) (i j : Nat)
    (hir : i < r) (hjc : j < c) :
    entry (mkMat r c g) i j = g i j := by
  rw [entry, mkMat, getD_map_range r _ _ i hir, getD_map_range c _ _ j hjc]

theorem mkMat_congr (r c : Nat) (g g' : Nat → Nat → ℚ)
    (h : ∀ i < r, ∀ j < c, g i j = g' i j) : mkMat r c g = mkMat r c g' := by
  unfold mkMat
  apply List.map_congr_left
  intro i hi
  apply List.map_congr_left
  intro j hj
  exact h i (List.mem_range.mp hi) j (List.mem_range.mp hj)

theorem bidx_eq_self (n i : Nat) (hi : i < n) : bidx n i = i := by
  unfold bidx
  split
  · omega
  · rfl

theorem bAxis_self (a : Nat) : bAxis a a = some a := by
  simp [bAxis]

theorem rowsOf_mulT (A B : NPArray) : rowsOf (mulT A B) = rowsOf A :=
  rowsOf_mkMat _ _ _

theorem colsOf_mulT (A B : NPArray) (h : 0 < rowsOf A) :
    colsOf (mulT A B) = colsOf B :=
  colsOf_mkMat _ _ _ h

theorem rowsOf_npTranspose (A : NPArray) : rowsOf (npTranspose A) = colsOf A :=
  rowsOf_mkMat _ _ _

theorem colsOf_npTranspose (A : NPArray) (h : 0 < colsOf A) :
    colsOf (npTranspose A) = rowsOf A :=
  colsOf_mkMat _ _ _ h

theorem rowsOf_addT (A B : NPArray) : rowsOf (addT A B) = rowsOf A :=
  rowsOf_mkMat _ _ _

theorem colsOf_addT (A B : NPArray) (h : 0 < rowsOf A) : colsOf (addT A B) = colsOf A :=
  colsOf_mkMat _ _ _ h

theorem rowsOf_subT (A B : NPArray) : rowsOf (subT A B) = rowsOf A :=
  rowsOf_mkMat _ _ _

theorem colsOf_subT (A B : NPArray) (h : 0 < rowsOf A) : colsOf (subT A B) = colsOf A :=
  colsOf_mkMat _ _ _ h

theorem rowsOf_ewiseB (op : ℚ → ℚ → ℚ) (A B : NPArray) (Rr Cc : Nat) :
    rowsOf (ewiseB op A B Rr Cc) = Rr :=
  rowsOf_mkMat _ _ _

theorem colsOf_ewiseB (op : ℚ → ℚ → ℚ) (A B : NPArray) (Rr Cc : Nat) (h : 0 < Rr) :
    colsOf (ewiseB op A B Rr Cc) = Cc :=
  colsOf_mkMat _ _ _ h

theorem npDot_eq (A B : NPArray) (h : colsOf A = rowsOf B) :
    npDot A B = .ok (mulT A B) := by
  simp [npDot, h]

theorem npDot_ok_inv (A B C : NPArray) (h : npDot A B = .ok C) :
    colsOf A = rowsOf B ∧ C = mulT A B := by
  unfold npDot at h
  split at h
  · rename_i hcr
    injection h with h1
    exact ⟨hcr, h1.symm⟩
  · exact absurd h (by simp)

theorem ewiseB_eq_of_eq_shape (op : ℚ → ℚ → ℚ) (A B : NPArray)
    (hr : rowsOf A = rowsOf B) (hc : colsOf A = colsOf B) :
    ewiseB op A B (max (rowsOf A) (rowsOf B)) (max (colsOf A) (colsOf B)) =
      mkMat (rowsOf A) (colsOf A) (fun i j => op (entry A i j) (entry B i j)) := by
  rw [← hr, ← hc, Nat.max_self, Nat.max_self]
  unfold ewiseB
  apply mkMat_congr
  intro i hi j hj
  rw [bidx_eq_self _ _ hi, bidx_eq_self _ _ hj,
      bidx_eq_self _ _ (hr ▸ hi), bidx_eq_self _ _ (hc ▸ hj)]

theorem npAdd_eq_addT (A B : NPArray) (hr : rowsOf A = rowsOf B)
    (hc : colsOf A = colsOf B) : npAdd A B = .ok (addT A B) := by
  have he := ewiseB_eq_of_eq_shape (· + ·) A B hr hc
  rw [← hr, ← hc, Nat.max_self, Nat.max_self] at he
  unfold npAdd
  rw [← hr, ← hc, bAxis_self, bAxis_self]
  dsimp only
  rw [he]
  rfl

theorem npSub_eq_subT (A B : NPArray) (hr : rowsOf A = rowsOf B)
    (hc : colsOf A = colsOf B) : npSub A B = .ok (subT A B) := by
  have he := ewiseB_eq_of_eq_shape (· - ·) A B hr hc
  rw [← hr, ← hc, Nat.max_self, Nat.max_self] at he
  unfold npSub
  rw [← hr, ← hc, bAxis_self, bAxis_self]
  dsimp only
  rw [he]
  rfl

theorem bAxis_some_inv (a b c : Nat) (h : bAxis a b = some c) :
    c = max a b ∧ (a = b ∨ a = 1 ∨ b = 1) := by
  unfold bAxis at h
  split at h
  · exact ⟨by injection h; omega, by assumption⟩
  · exact absurd h (by simp)

theorem npAdd_ok_inv (A B C : NPArray) (h : npAdd A B = .ok C) :
    ∃ Rr Cc, bAxis (rowsOf A) (rowsOf B) = some Rr ∧
      bAxis (colsOf A) (colsOf B) = some Cc ∧ C = ewiseB (· + ·) A B Rr Cc := by
  unfold npAdd at h
  split at h
  · rename_i Rr Cc h1 h2
    exact ⟨Rr, Cc, h1, h2, by injection h; simp_all⟩
  · exact absurd h (by simp)

theorem npSub_ok_inv (A B C : NPArray) (h : npSub A B = .ok C) :
    ∃ Rr Cc, bAxis (rowsOf A) (rowsOf B) = some Rr ∧
      bAxis (colsOf A) (colsOf B) = some Cc ∧ C = ewiseB (· - ·) A B Rr Cc := by
  unfold npSub at h
  split at h
  · rename_i Rr Cc h1 h2
    exact ⟨Rr, Cc, h1, h2, by injection h; simp_all⟩
  · exact absurd h (by simp)

theorem npInv_some_inv (S A : NPArray) (h : npInv S = some A) :
    colsOf S = rowsOf S ∧
      A = mkMat (rowsOf S) (rowsOf S)
            (fun i j => (-1 : ℚ) ^ (i + j) * detL (minorM S j i) / detL S) := by
  unfold npInv at h
  split at h
  · rename_i hcond
    exact ⟨hcond.1, by injection h; simp_all⟩
  · exact absurd h (by simp)

theorem npInvert_ok_inv (S A : NPArray) (h : npInvert S = .ok A) :
    npInv S = some A := by
  unfold npInvert at h
  split at h
  · rename_i B hB
    injection h with h1
    rw [hB, h1]
  · exact absurd h (by simp)

theorem rowsOf_npSmul (A : NPArray) (c : ℚ) : rowsOf (npSmul A c) = rowsOf A := by
  simp [npSmul, rowsOf]

theorem colsOf_npSmul (A : NPArray) (c : ℚ) : colsOf (npSmul A c) = colsOf A := by
  cases A with
  | nil => rfl
  | cons r rest => simp [npSmul, colsOf]

theorem getD_map_mul (row : List ℚ) (c : ℚ) (j : Nat) :
    (row.map (· * c)).getD j 0 = row.getD j 0 * c := by
  induction row generalizing j with
  | nil => simp
  | cons a rest ih =>
    cases j with
    | zero => simp
    | succ k => simpa using ih k

theorem entry_npSmul (A : NPArray) (c : ℚ) (i j : Nat) :
    entry (npSmul A c) i j = entry A i j * c := by
  induction A generalizing i with
  | nil => simp [entry, npSmul]
  | cons r rest ih =>
    cases i with
    | zero => simpa [entry, npSmul] using getD_map_mul r c j
    | succ k => simpa [entry, npSmul] using ih k

theorem rowsOf_npEye (n m : Nat) : rowsOf (npEye n m) = n :=
  rowsOf_mkMat _ _ _

theorem colsOf_npEye (n m : Nat) (hn : 0 < n) :
    colsOf (npEye n m) = if m = 0 then n else m :=
  colsOf_mkMat _ _ _ hn

theorem entry_npEye (n m : Nat) (i j : Nat) (hi : i < n)
    (hj : j < if m = 0 then n else m) :
    entry (npEye n m) i j = if j = i then 1 else 0 :=
  entry_mkMat _ _ _ _ _ hi hj

theorem rowsOf_npZeros (n : Nat) : rowsOf (npZeros n) = n :=
  rowsOf_mkMat _ _ _

theorem colsOf_npZeros (n : Nat) (hn : 0 < n) : colsOf (npZeros n) = 1 :=
  colsOf_mkMat _ _ _ hn

theorem entry_npZeros (n i j : Nat) (hi : i < n) (hj : j < 1) :
    entry (npZeros n) i j = 0 :=
  entry_mkMat _ _ _ _ _ hi hj

theorem rowsOf_npFromTuple (t : List ℚ) : rowsOf (npFromTuple t) = t.length :=
  rowsOf_mkMat _ _ _

theorem colsOf_npFromTuple (t : List ℚ) (ht : 0 < t.length) :
    colsOf (npFromTuple t) = 1 :=
  colsOf_mkMat _ _ _ ht

theorem length_npAsarray (A : NPArray) : (npAsarray A).length = rowsOf A := by
  simp [npAsarray, rowsOf]

theorem length_getD_mkMat (r c : Nat) (g : Nat → Nat → ℚ) (i : Nat) (hi : i < r) :
    ((mkMat r c g).getD i []).length = c := by
  unfold mkMat
  rw [getD_map_range _ _ _ _ hi]
  simp

theorem diag_shape_entries (n : Nat) (c : ℚ) (hn : 0 < n) :
    rowsOf (npSmul (npEye n) c) = n ∧ colsOf (npSmul (npEye n) c) = n ∧
    ∀ i < n, ∀ j < n, entry (npSmul (npEye n) c) i j = if i = j then c else 0 := by
  refine ⟨?_, ?_, ?_⟩
  · rw [rowsOf_npSmul, rowsOf_npEye]
  · rw [colsOf_npSmul, colsOf_npEye n 0 hn]
    simp
  · intro i hi j hj
    rw [entry_npSmul, entry_npEye n 0 i j hi (by simpa using hj)]
    rcases eq_or_ne i j with he | he
    · subst he
      simp
    · rw [if_neg (Ne.symm he), if_neg he, zero_mul]

/-! ## Example filter models used by witnesses and counterexamples -/

/-- Scalar filter (n = m = 1) with identity dynamics: `f = h = id`, `F = H = 1`. -/
def mdlScalar : EKFModel :=
  ⟨some (fun v => v), some (fun _ => [[1]]), some (fun v => v), some (fun _ => [[1]])⟩

/-- Scalar filter whose observation Jacobian is the zero matrix (`H = 0`);
    with `rval = 0` the innovation covariance is exactly singular. -/
def mdlSing : EKFModel :=
  ⟨some (fun v => v), some (fun _ => [[1]]), some (fun v => v), some (fun _ => [[0]])⟩

/-- The state built by `EKF_init mdlSing 1 1 1 1 0`. -/
def sSing : EKFState := ⟨[[0]], none, [[1]], [[1]], [[0]], [[1]], [[0]], [[1]]⟩

/-- Filter with n = 1, m = 2 (two observables of a scalar state). -/
def mdlTwoObs : EKFModel :=
  ⟨some (fun v => v), some (fun _ => [[1]]),
   some (fun v => [[entry v 0 0], [entry v 0 0]]), some (fun _ => [[1], [1]])⟩

/-- The state built by `EKF_init mdlTwoObs 1 2 1 0 1`. -/
def sTwoObs : EKFState :=
  ⟨[[0]], none, [[1]], [[1]], [[1], [1]], [[0]], [[1, 0], [0, 1]], [[1]]⟩

/-- Scalar filter with constant callbacks (their output shapes hold for
    every input, as the callback contract demands). -/
def mdlConst : EKFModel :=
  ⟨some (fun _ => [[0]]), some (fun _ => [[1]]), some (fun _ => [[0]]), some (fun _ => [[1]])⟩

/-- Implementing class that overrides everything except `f`. -/
def mdlNoF : EKFModel :=
  ⟨none, some (fun _ => [[1]]), some (fun v => v), some (fun _ => [[1]])⟩

/-- Implementing class that overrides everything except `getF`. -/
def mdlNoGetF : EKFModel :=
  ⟨some (fun v => v), none, some (fun v => v), some (fun _ => [[1]])⟩

/-- Implementing class that overrides everything except `getH`. -/
def mdlNoGetH : EKFModel :=
  ⟨some (fun v => v), some (fun _ => [[1]]), some (fun v => v), none⟩

/-! ## Claim C5 — constructor effects -/

/-- **C5**: for every construction with parameters `(n, m, pval, qval, rval)`
    and supplied callbacks `getF`, `getH`, the constructor sets `x` to the
    zero column of length n, `P_post` to `pval·I_n`, `Q` to `qval·I_n`, `R`
    to `rval·I_m`, `I` to the n×n identity, leaves `P_pre` unset, and calls
    `getF` and `getH` exactly once each (the recorded call trace), both on
    the initial zero state `x`. -/
theorem EKF_init_characterization (mdl : EKFModel) (n m : Nat) (p q r : ℚ)
    (gF gH : NPArray → NPArray) (hgF : mdl.getF = some gF) (hgH : mdl.getH = some gH)
    (hn : 0 < n) (hm : 0 < m) :
    ∃ s : EKFState,
      EKF_init mdl n m p q r = .ok (s, [.callGetF, .callGetH]) ∧
      rowsOf s.x = n ∧ colsOf s.x = 1 ∧ (∀ i < n, entry s.x i 0 = 0) ∧
      s.F = gF s.x ∧ s.H = gH s.x ∧ s.P_pre = none ∧
      rowsOf s.P_post = n ∧ colsOf s.P_post = n ∧
      (∀ i < n, ∀ j < n, entry s.P_post i j = if i = j then p else 0) ∧
      rowsOf s.Q = n ∧ colsOf s.Q = n ∧
      (∀ i < n, ∀ j < n, entry s.Q i j = if i = j then q else 0) ∧
      rowsOf s.R = m ∧ colsOf s.R = m ∧
      (∀ i < m, ∀ j < m, entry s.R i j = if i = j then r else 0) ∧
      rowsOf s.I = n ∧ colsOf s.I = n ∧
      (∀ i < n, ∀ j < n, entry s.I i j = if i = j then (1 : ℚ) else 0) := by
  refine ⟨⟨npZeros n, none, npSmul (npEye n) p, gF (npZeros n), gH (npZeros n),
          npSmul (npEye n) q, npSmul (npEye m) r, npEye n⟩, ?_, ?_, ?_, ?_,
          rfl, rfl, rfl, ?_⟩
  · unfold EKF_init
    rw [hgF, hgH]
  · exact rowsOf_npZeros n
  · exact colsOf_npZeros n hn
  · intro i hi
    exact entry_npZeros n i 0 hi (by omega)
  · obtain ⟨p1, p2, p3⟩ := diag_shape_entries n p hn
    obtain ⟨q1, q2, q3⟩ := diag_shape_entries n q hn
    obtain ⟨r1, r2, r3⟩ := diag_shape_entries m r hm
    refine ⟨p1, p2, p3, q1, q2, q3, r1, r2, r3, rowsOf_npEye n 0, ?_, ?_⟩
    · rw [colsOf_npEye n 0 hn]
      simp
    · intro i hi j hj
      rw [entry_npEye n 0 i j hi (by simpa using hj)]
      rcases eq_or_ne i j with he | he
      · subst he
        simp
      · rw [if_neg (Ne.symm he), if_neg he]

/-- Witness for C5 at a concrete scalar construction. -/
theorem EKF_init_characterization_witness :
    ∃ s : EKFState,
      EKF_init mdlScalar 1 1 5 7 9 = .ok (s, [.callGetF, .callGetH]) ∧
      rowsOf s.x = 1 ∧ colsOf s.x = 1 ∧ (∀ i < 1, entry s.x i 0 = 0) ∧
      s.F = [[1]] ∧ s.H = [[1]] ∧ s.P_pre = none ∧
      rowsOf s.P_post = 1 ∧ colsOf s.P_post = 1 ∧
      (∀ i < 1, ∀ j < 1, entry s.P_post i j = if i = j then (5 : ℚ) else 0) ∧
      rowsOf s.Q = 1 ∧ colsOf s.Q = 1 ∧
      (∀ i < 1, ∀ j < 1, entry s.Q i j = if i = j then (7 : ℚ) else 0) ∧
      rowsOf s.R = 1 ∧ colsOf s.R = 1 ∧
      (∀ i < 1, ∀ j < 1, entry s.R i j = if i = j then (9 : ℚ) else 0) ∧
      rowsOf s.I = 1 ∧ colsOf s.I = 1 ∧
      (∀ i < 1, ∀ j < 1, entry s.I i j = if i = j then (1 : ℚ) else 0) :=
  EKF_init_characterization mdlScalar 1 1 5 7 9 _ _ rfl rfl (by decide) (by decide)

/-! ## Claim C9 — identity constructor -/

/-- **C9 counterexample**: with the explicit argument pair `(2, 0)` the
    identity constructor does not return a 2×0 matrix (whose rows would be
    empty) — it returns a matrix with 2 columns, because the source replaces
    an explicit `m = 0` by `n`. -/
theorem npEye_explicit_zero_cex : colsOf (npEye 2 0) = 2 ∧ (2 : Nat) ≠ 0 := by
  constructor
  · decide
  · decide

/-- **C9 amended**: for every `n` and every `m ≥ 1` the explicit call
    `eye(n, m)` returns an n×m matrix with 1s on the main diagonal and 0s
    elsewhere; an explicit `m = 0` — and hence also an omitted `m`, whose
    default is 0 — is treated as `m = n`, giving the n×n identity. -/
theorem npEye_characterization (n m : Nat) :
    rowsOf (npEye n m) = n ∧
    ∀ i < n, ((npEye n m).getD i []).length = (if m = 0 then n else m) ∧
      ∀ j, j < (if m = 0 then n else m) →
        entry (npEye n m) i j = if i = j then 1 else 0 := by
  refine ⟨rowsOf_npEye n m, fun i hi => ⟨length_getD_mkMat _ _ _ i hi, fun j hj => ?_⟩⟩
  rw [entry_npEye n m i j hi hj]
  rcases eq_or_ne i j with he | he
  · subst he
    simp
  · rw [if_neg (Ne.symm he), if_neg he]

/-- Witness for C9 at the concrete explicit call `eye(2, 3)`. -/
theorem npEye_characterization_witness :
    rowsOf (npEye 2 3) = 2 ∧ ((npEye 2 3).getD 0 []).length = 3 ∧
      entry (npEye 2 3) 0 1 = 0 := by
  refine ⟨(npEye_characterization 2 3).1, ?_, ?_⟩
  · have := ((npEye_characterization 2 3).2 0 (by decide)).1
    simpa using this
  · have := ((npEye_characterization 2 3).2 0 (by decide)).2 1 (by decide)
    simpa using this

/-! ## Claim C10 — element access -/

/-- numpy's effective index on an axis of extent `n` for an in-range index. -/
def wrapIdx (n : Nat) (i : ℤ) : Nat := (if i < 0 then i + n else i).toNat

theorem normIdx_in_range (n : Nat) (i : ℤ) (h1 : -(n : ℤ) ≤ i) (h2 : i < n) :
    normIdx n i = some (wrapIdx n i) := by
  unfold normIdx wrapIdx
  split
  · rename_i hc
    rw [if_neg (by omega)]
  · split
    · rename_i hc hc'
      rw [if_pos (by omega)]
    · omega

theorem normIdx_out_of_range (n : Nat) (i : ℤ) (h : i < -(n : ℤ) ∨ (n : ℤ) ≤ i) :
    normIdx n i = none := by
  unfold normIdx
  split
  · omega
  · split
    · omega
    · rfl

/-- **C10 counterexample**: reading the matrix `[[1,2],[3,4]]` at the
    negative row index −1 succeeds (numpy wraps it to the last row) instead
    of failing with an index error. -/
theorem npGetItem_negative_index_cex :
    npGetItem [[1, 2], [3, 4]] (-1) 0 = .ok 3 := by
  norm_num [npGetItem, normIdx, entry, rowsOf, colsOf]

/-- **C10 amended**: element get/set accepts every index pair with
    `row ∈ [-rows, rows)` and `col ∈ [-cols, cols)`, a negative index
    counting from the end (numpy wrapping); only an index outside those
    ranges fails, with an `IndexError`, for get and set alike. -/
theorem npGetSetItem_characterization (M : NPArray) (i j : ℤ) (v : ℚ) :
    ((-(rowsOf M : ℤ) ≤ i ∧ i < (rowsOf M : ℤ) ∧
      -(colsOf M : ℤ) ≤ j ∧ j < (colsOf M : ℤ)) →
        npGetItem M i j = .ok (entry M (wrapIdx (rowsOf M) i) (wrapIdx (colsOf M) j)) ∧
        npSetItem M i j v = .ok (M.set (wrapIdx (rowsOf M) i)
          ((M.getD (wrapIdx (rowsOf M) i) []).set (wrapIdx (colsOf M) j) v))) ∧
    ((i < -(rowsOf M : ℤ) ∨ (rowsOf M : ℤ) ≤ i ∨
      j < -(colsOf M : ℤ) ∨ (colsOf M : ℤ) ≤ j) →
        npGetItem M i j = .error .indexError ∧
        npSetItem M i j v = .error .indexError) := by
  constructor
  · rintro ⟨h1, h2, h3, h4⟩
    unfold npGetItem npSetItem
    rw [normIdx_in_range _ _ h1 h2, normIdx_in_range _ _ h3 h4]
    exact ⟨rfl, rfl⟩
  · intro h
    unfold npGetItem npSetItem
    rcases h with h | h | h | h
    · rw [normIdx_out_of_range _ _ (Or.inl h)]
      exact ⟨rfl, rfl⟩
    · rw [normIdx_out_of_range _ _ (Or.inr h)]
      exact ⟨rfl, rfl⟩
    · rw [normIdx_out_of_range (colsOf M) _ (Or.inl h)]
      cases normIdx (rowsOf M) i <;> exact ⟨rfl, rfl⟩
    · rw [normIdx_out_of_range (colsOf M) _ (Or.inr h)]
      cases normIdx (rowsOf M) i <;> exact ⟨rfl, rfl⟩

/-- Witness for C10: an in-range negative access and an out-of-range access
    on a concrete matrix. -/
theorem npGetSetItem_characterization_witness :
    (npGetItem [[1, 2], [3, 4]] (-2) 1 = .ok 2 ∧
      npSetItem [[1, 2], [3, 4]] (-2) 1 9 = .ok [[1, 9], [3, 4]]) ∧
    (npGetItem [[1, 2], [3, 4]] 2 0 = .error .indexError ∧
      npSetItem [[1, 2], [3, 4]] 2 0 9 = .error .indexError) := by
  constructor
  · have := (npGetSetItem_characterization [[1, 2], [3, 4]] (-2) 1 9).1
      (by norm_num [rowsOf, colsOf])
    constructor
    · rw [this.1]
      norm_num [entry, wrapIdx, rowsOf, colsOf]
    · rw [this.2]
      norm_num [wrapIdx, rowsOf, colsOf]
  · exact (npGetSetItem_characterization [[1, 2], [3, 4]] 2 0 9).2
      (by norm_num [rowsOf, colsOf])

/-! ## Claim C4 — missing callbacks -/

/-- **C4 counterexample**: an implementing class that never supplies `f`
    (but supplies the other three callbacks) is constructed *successfully* —
    the missing-callback failure is deferred to the first `step` call, which
    raises `NotImplementedError` at its very first statement. -/
theorem missing_f_deferred_cex :
    ∃ s tr, EKF_init mdlNoF 1 1 1 0 1 = .ok (s, tr) ∧
      EKF_step mdlNoF s [0] = .err s .notImplementedError := by
  refine ⟨⟨npZeros 1, none, npSmul (npEye 1) 1, [[1]], [[1]],
          npSmul (npEye 1) 0, npSmul (npEye 1) 1, npEye 1⟩, [.callGetF, .callGetH], ?_, ?_⟩
  · unfold EKF_init mdlNoF
    rfl
  · unfold EKF_step mdlNoF
    rfl

/-- Implementing class that overrides everything except `h`. -/
def mdlNoH : EKFModel :=
  ⟨some (fun v => v), some (fun _ => [[1]]), none, some (fun _ => [[1]])⟩

/-- The state built by `EKF_init mdlNoH 1 1 1 0 1`. -/
def sNoH : EKFState := ⟨[[0]], none, [[1]], [[1]], [[1]], [[0]], [[1]], [[1]]⟩

/-- With `h` not overridden, a `step` that reaches the innovation
    computation raises `NotImplementedError` there — after the
    predict-phase mutations have been applied. -/
theorem missing_h_step (mdl : EKFModel) (s : EKFState) (z : List ℚ)
    (f0 : NPArray → NPArray) (hf : mdl.f = some f0) (hh : mdl.h = none)
    (a1 a2 Ppre t1 b1 b2 S Sinv G : NPArray)
    (h1 : npDot s.F s.P_post = .ok a1)
    (h2 : npDot a1 (npTranspose s.F) = .ok a2)
    (h3 : npAdd a2 s.Q = .ok Ppre)
    (h4 : npDot Ppre (npTranspose s.H) = .ok t1)
    (h5 : npDot s.H Ppre = .ok b1)
    (h6 : npDot b1 (npTranspose s.H) = .ok b2)
    (h7 : npAdd b2 s.R = .ok S)
    (h8 : npInv S = some Sinv)
    (h9 : npDot t1 Sinv = .ok G) :
    EKF_step mdl s z =
      .err { s with x := f0 s.x, P_pre := some Ppre, P_post := npCopy Ppre }
        .notImplementedError := by
  have hinv : npInvert S = .ok Sinv := by
    unfold npInvert
    rw [h8]
  unfold EKF_step
  rw [hf]
  dsimp only
  rw [h1]
  dsimp only
  rw [h2]
  dsimp only
  rw [h3]
  dsimp only
  rw [h4]
  dsimp only
  rw [h5]
  dsimp only
  rw [h6]
  dsimp only
  rw [h7]
  dsimp only
  rw [hinv]
  dsimp only
  rw [h9]
  dsimp only
  rw [hh]

/-- **C4 amended**: a missing `getF` or `getH` override is detected at
    construction (`NotImplementedError` escapes `__init__`, because both
    Jacobian callbacks are invoked there), but a missing `f` — and likewise
    a missing `h` — is *not*: construction succeeds and the
    `NotImplementedError` is raised only by the first `step` call (for `f`
    at its very first statement; for `h` at the innovation computation,
    after the predict-phase mutations). -/
theorem missing_callback_detection (mdl : EKFModel) (n m : Nat) (p q r : ℚ) :
    (mdl.getF = none → EKF_init mdl n m p q r = .error .notImplementedError) ∧
    (∀ gF, mdl.getF = some gF → mdl.getH = none →
      EKF_init mdl n m p q r = .error .notImplementedError) ∧
    (∀ gF gH, mdl.getF = some gF → mdl.getH = some gH → mdl.f = none →
      ∃ s tr, EKF_init mdl n m p q r = .ok (s, tr) ∧
        ∀ z, EKF_step mdl s z = .err s .notImplementedError) ∧
    (∀ gF gH f0, mdl.getF = some gF → mdl.getH = some gH → mdl.f = some f0 →
      mdl.h = none →
      ∃ s tr, EKF_init mdl n m p q r = .ok (s, tr) ∧
        ∀ z (a1 a2 Ppre t1 b1 b2 S Sinv G : NPArray),
          npDot s.F s.P_post = .ok a1 →
          npDot a1 (npTranspose s.F) = .ok a2 →
          npAdd a2 s.Q = .ok Ppre →
          npDot Ppre (npTranspose s.H) = .ok t1 →
          npDot s.H Ppre = .ok b1 →
          npDot b1 (npTranspose s.H) = .ok b2 →
          npAdd b2 s.R = .ok S →
          npInv S = some Sinv →
          npDot t1 Sinv = .ok G →
          EKF_step mdl s z =
            .err { s with x := f0 s.x, P_pre := some Ppre, P_post := npCopy Ppre }
              .notImplementedError) := by
  refine ⟨?_, ?_, ?_, ?_⟩
  · intro hgF
    unfold EKF_init
    rw [hgF]
  · intro gF hgF hgH
    unfold EKF_init
    rw [hgF, hgH]
  · intro gF gH hgF hgH hf
    refine ⟨⟨npZeros n, none, npSmul (npEye n) p, gF (npZeros n), gH (npZeros n),
            npSmul (npEye n) q, npSmul (npEye m) r, npEye n⟩,
            [.callGetF, .callGetH], ?_, ?_⟩
    · unfold EKF_init
      rw [hgF, hgH]
    · intro z
      unfold EKF_step
      rw [hf]
  · intro gF gH f0 hgF hgH hf hh
    refine ⟨⟨npZeros n, none, npSmul (npEye n) p, gF (npZeros n), gH (npZeros n),
            npSmul (npEye n) q, npSmul (npEye m) r, npEye n⟩,
            [.callGetF, .callGetH], ?_, ?_⟩
    · unfold EKF_init
      rw [hgF, hgH]
    · intro z a1 a2 Ppre t1 b1 b2 S Sinv G h1 h2 h3 h4 h5 h6 h7 h8 h9
      exact missing_h_step mdl _ z f0 hf hh a1 a2 Ppre t1 b1 b2 S Sinv G
        h1 h2 h3 h4 h5 h6 h7 h8 h9

/-- Witness for C4 at concrete implementing classes missing `getF`, `getH`,
    `f` and `h` respectively. -/
theorem missing_callback_detection_witness :
    EKF_init mdlNoGetF 1 1 1 0 1 = .error .notImplementedError ∧
    EKF_init mdlNoGetH 1 1 1 0 1 = .error .notImplementedError ∧
    (∃ s tr, EKF_init mdlNoF 2 3 1 0 1 = .ok (s, tr) ∧
      ∀ z, EKF_step mdlNoF s z = .err s .notImplementedError) ∧
    (EKF_init mdlNoH 1 1 1 0 1 = .ok (sNoH, [.callGetF, .callGetH]) ∧
      EKF_step mdlNoH sNoH [0] =
        .err { sNoH with x := [[0]], P_pre := some [[1]], P_post := npCopy [[1]] }
          .notImplementedError) := by
  refine ⟨(missing_callback_detection mdlNoGetF 1 1 1 0 1).1 rfl,
    (missing_callback_detection mdlNoGetH 1 1 1 0 1).2.1 _ rfl rfl,
    (missing_callback_detection mdlNoF 2 3 1 0 1).2.2.1 _ _ rfl rfl rfl, ?_⟩
  have hcomp : EKF_init mdlNoH 1 1 1 0 1 = .ok (sNoH, [.callGetF, .callGetH]) := by
    norm_num [EKF_init, mdlNoH, sNoH, npZeros, npSmul, npEye, mkMat, List.range_succ]
  obtain ⟨s, tr, hinit, hchain⟩ :=
    (missing_callback_detection mdlNoH 1 1 1 0 1).2.2.2
      (fun _ => [[1]]) (fun _ => [[1]]) (fun v => v) rfl rfl rfl rfl
  rw [hcomp] at hinit
  injection hinit with hpair
  injection hpair with hs htr
  subst hs
  refine ⟨hcomp, ?_⟩
  have e1 : npDot sNoH.F sNoH.P_post = .ok [[1]] := by
    norm_num [npDot, sNoH, mulT, mkMat, rowsOf, colsOf, entry, List.range_succ]
  have e2 : npDot [[1]] (npTranspose sNoH.F) = .ok [[1]] := by
    norm_num [npDot, sNoH, mulT, npTranspose, mkMat, rowsOf, colsOf, entry,
      List.range_succ]
  have e3 : npAdd [[1]] sNoH.Q = .ok [[1]] := by
    norm_num [npAdd, sNoH, ewiseB, bAxis, bidx, mkMat, rowsOf, colsOf, entry,
      List.range_succ]
  have e4 : npDot [[1]] (npTranspose sNoH.H) = .ok [[1]] := by
    norm_num [npDot, sNoH, mulT, npTranspose, mkMat, rowsOf, colsOf, entry,
      List.range_succ]
  have e5 : npDot sNoH.H [[1]] = .ok [[1]] := by
    norm_num [npDot, sNoH, mulT, mkMat, rowsOf, colsOf, entry, List.range_succ]
  have e6 : npDot [[1]] (npTranspose sNoH.H) = .ok [[1]] := by
    norm_num [npDot, sNoH, mulT, npTranspose, mkMat, rowsOf, colsOf, entry,
      List.range_succ]
  have e7 : npAdd [[1]] sNoH.R = .ok [[2]] := by
    norm_num [npAdd, sNoH, ewiseB, bAxis, bidx, mkMat, rowsOf, colsOf, entry,
      List.range_succ]
  have e8 : npInv [[2]] = some [[1/2]] := by
    norm_num [npInv, detL, minorM, dropCol, mkMat, rowsOf, colsOf, entry,
      List.range_succ]
  have e9 : npDot [[1]] [[1/2]] = .ok [[1/2]] := by
    norm_num [npDot, mulT, mkMat, rowsOf, colsOf, entry, List.range_succ]
  exact hchain [0] [[1]] [[1]] [[1]] [[1]] [[1]] [[1]] [[2]] [[1/2]] [[1/2]]
    e1 e2 e3 e4 e5 e6 e7 e8 e9

/-! ## Claim C2 — singular innovation covariance -/

/-- **C2 counterexample**: for the filter `mdlSing` (with `H = 0`, `R = 0`)
    the innovation covariance of the first step is the singular 1×1 zero
    matrix; `step` then escapes with `SystemExit` (`exit(0)` — process
    termination, not a recoverable error), and at that moment `P_post` and
    `P_pre` have already been changed by the predict phase. -/
theorem singular_step_exits_cex :
    EKF_init mdlSing 1 1 1 1 0 = .ok (sSing, [.callGetF, .callGetH]) ∧
    EKF_step mdlSing sSing [0] =
      .err { sSing with x := [[0]], P_pre := some [[2]], P_post := [[2]] } .systemExit ∧
    ({ sSing with x := [[0]], P_pre := some [[2]], P_post := [[2]] } : EKFState).P_post
        ≠ sSing.P_post := by
  refine ⟨?_, ?_, ?_⟩
  · norm_num [EKF_init, mdlSing, sSing, npZeros, npSmul, npEye, mkMat, List.range_succ]
  · norm_num [EKF_step, mdlSing, sSing, npDot, npAdd, npInvert, npInv, detL, mulT, ewiseB,
      bAxis, bidx, mkMat, npTranspose, npCopy, rowsOf, colsOf, entry, List.range_succ]
  · norm_num [sSing]

/-- **C2 amended**: whenever a step reaches the inversion of the innovation
    covariance `S = H·P_pre·Hᵗ + R` and `S` is singular (or non-square), the
    inversion failure is *not* surfaced as a recoverable error: `step`
    escapes with `SystemExit` raised by `exit(0)` inside `invert`, which by
    default terminates the host process, and at that moment `x`, `P_pre`
    and `P_post` have already been overwritten by the predict phase. -/
theorem singular_innovation_exits (mdl : EKFModel) (s : EKFState) (z : List ℚ)
    (f0 : NPArray → NPArray) (hf : mdl.f = some f0)
    (a1 a2 Ppre t1 b1 b2 S : NPArray)
    (h1 : npDot s.F s.P_post = .ok a1)
    (h2 : npDot a1 (npTranspose s.F) = .ok a2)
    (h3 : npAdd a2 s.Q = .ok Ppre)
    (h4 : npDot Ppre (npTranspose s.H) = .ok t1)
    (h5 : npDot s.H Ppre = .ok b1)
    (h6 : npDot b1 (npTranspose s.H) = .ok b2)
    (h7 : npAdd b2 s.R = .ok S)
    (h8 : npInv S = none) :
    EKF_step mdl s z =
      .err { s with x := f0 s.x, P_pre := some Ppre, P_post := npCopy Ppre }
        .systemExit := by
  have hinv : npInvert S = .error .systemExit := by
    unfold npInvert
    rw [h8]
  unfold EKF_step
  rw [hf]
  dsimp only
  rw [h1]
  dsimp only
  rw [h2]
  dsimp only
  rw [h3]
  dsimp only
  rw [h4]
  dsimp only
  rw [h5]
  dsimp only
  rw [h6]
  dsimp only
  rw [h7]
  dsimp only
  rw [hinv]

/-- Witness for C2: the `mdlSing` scenario instantiates every hypothesis of
    the amended theorem. -/
theorem singular_innovation_exits_witness :
    EKF_step mdlSing sSing [0] =
      .err { sSing with x := [[0]], P_pre := some [[2]], P_post := npCopy [[2]] }
        .systemExit := by
  have e1 : npDot sSing.F sSing.P_post = .ok [[1]] := by
    norm_num [npDot, sSing, mulT, mkMat, rowsOf, colsOf, entry, List.range_succ]
  have e2 : npDot [[1]] (npTranspose sSing.F) = .ok [[1]] := by
    norm_num [npDot, sSing, mulT, npTranspose, mkMat, rowsOf, colsOf, entry, List.range_succ]
  have e3 : npAdd [[1]] sSing.Q = .ok [[2]] := by
    norm_num [npAdd, sSing, ewiseB, bAxis, bidx, mkMat, rowsOf, colsOf, entry, List.range_succ]
  have e4 : npDot [[2]] (npTranspose sSing.H) = .ok [[0]] := by
    norm_num [npDot, sSing, mulT, npTranspose, mkMat, rowsOf, colsOf, entry, List.range_succ]
  have e5 : npDot sSing.H [[2]] = .ok [[0]] := by
    norm_num [npDot, sSing, mulT, mkMat, rowsOf, colsOf, entry, List.range_succ]
  have e6 : npDot [[0]] (npTranspose sSing.H) = .ok [[0]] := by
    norm_num [npDot, sSing, mulT, npTranspose, mkMat, rowsOf, colsOf, entry, List.range_succ]
  have e7 : npAdd [[0]] sSing.R = .ok [[0]] := by
    norm_num [npAdd, sSing, ewiseB, bAxis, bidx, mkMat, rowsOf, colsOf, entry, List.range_succ]
  have e8 : npInv [[0]] = none := by
    norm_num [npInv, detL, rowsOf, colsOf]
  have hx : (fun (v : NPArray) => v) sSing.x = [[0]] := by
    norm_num [sSing]
  have := singular_innovation_exits mdlSing sSing [0] (fun v => v) rfl
    [[1]] [[1]] [[2]] [[0]] [[0]] [[0]] [[0]] e1 e2 e3 e4 e5 e6 e7 e8
  rw [this, hx]

/-! ## Claim C6 — step never touches the model matrices -/

/-- The state built by `EKF_init mdlScalar 1 1 1 0 1`. -/
def sScalar : EKFState := ⟨[[0]], none, [[1]], [[1]], [[1]], [[0]], [[1]], [[1]]⟩

/-- **C6**: a successful `step` call leaves `F`, `H`, `Q`, `R` and `I`
    exactly as they were before the call — only `x`, `P_pre` and `P_post`
    are reassigned; the Jacobians and noise matrices are never recomputed
    after construction. -/
theorem step_preserves_model_matrices (mdl : EKFModel) (s s' : EKFState)
    (z ret : List ℚ) (h : EKF_step mdl s z = .ok s' ret) :
    s'.F = s.F ∧ s'.H = s.H ∧ s'.Q = s.Q ∧ s'.R = s.R ∧ s'.I = s.I := by
  simp only [EKF_step] at h
  repeat (any_goals split at h)
  all_goals cases h
  exact ⟨rfl, rfl, rfl, rfl, rfl⟩

/-- Witness for C6: a concrete successful scalar step. -/
theorem step_preserves_model_matrices_witness :
    (⟨[[1/2]], some [[1]], [[1/2]], [[1]], [[1]], [[0]], [[1]], [[1]]⟩ : EKFState).F
        = sScalar.F ∧
    (⟨[[1/2]], some [[1]], [[1/2]], [[1]], [[1]], [[0]], [[1]], [[1]]⟩ : EKFState).H
        = sScalar.H ∧
    (⟨[[1/2]], some [[1]], [[1/2]], [[1]], [[1]], [[0]], [[1]], [[1]]⟩ : EKFState).Q
        = sScalar.Q ∧
    (⟨[[1/2]], some [[1]], [[1/2]], [[1]], [[1]], [[0]], [[1]], [[1]]⟩ : EKFState).R
        = sScalar.R ∧
    (⟨[[1/2]], some [[1]], [[1/2]], [[1]], [[1]], [[0]], [[1]], [[1]]⟩ : EKFState).I
        = sScalar.I :=
  step_preserves_model_matrices mdlScalar sScalar
    ⟨[[1/2]], some [[1]], [[1/2]], [[1]], [[1]], [[0]], [[1]], [[1]]⟩ [1] [1/2]
    (by norm_num [EKF_step, mdlScalar, sScalar, npDot, npAdd, npSub, npInvert, npInv,
      detL, minorM, dropCol, mulT, ewiseB, bAxis, bidx, mkMat, npTranspose, npCopy,
      npFromTuple, npAsarray, rowsOf, colsOf, entry, List.range_succ])

/-! ## Claim C3 — measurement length -/

theorem bAxis_none (a b : Nat) (hab : a ≠ b) (ha : a ≠ 1) (hb : b ≠ 1) :
    bAxis a b = none := by
  simp [bAxis, hab, ha, hb]

theorem npSub_rows_mismatch (A B : NPArray) (hab : rowsOf A ≠ rowsOf B)
    (ha : rowsOf A ≠ 1) (hb : rowsOf B ≠ 1) : npSub A B = .error .valueError := by
  unfold npSub
  rw [bAxis_none _ _ hab ha hb]

/-- **C3 counterexample**: a filter with m = 2 observables, stepped with the
    1-element measurement `[5]`, does *not* fail with a dimension mismatch:
    numpy broadcasts the short measurement against the 2×1 predicted
    observation and the step completes successfully. -/
theorem short_measurement_broadcasts_cex :
    rowsOf sTwoObs.R = 2 ∧ [(5 : ℚ)].length = 1 ∧
    EKF_step mdlTwoObs sTwoObs [5] =
      .ok { sTwoObs with x := [[10/3]], P_pre := some [[1]], P_post := [[1/3]] }
        [10/3] := by
  refine ⟨by decide, by decide, ?_⟩
  norm_num [EKF_step, mdlTwoObs, sTwoObs, npDot, npAdd, npSub, npInvert, npInv,
    detL, minorM, dropCol, mulT, ewiseB, bAxis, bidx, mkMat, npTranspose, npCopy,
    npFromTuple, npAsarray, rowsOf, colsOf, entry, List.range_succ]

/-- **C3 amended**: `step` performs no up-front measurement-length check.
    When `len(z)` and the predicted observation length both differ from 1
    and from each other, the mismatch surfaces as a shape error
    (`ValueError`) raised at the innovation subtraction — *after* `x`,
    `P_pre` and `P_post` have already been overwritten by the predict
    phase; when `len(z) = 1 ≠ m`, broadcasting applies and the step
    completes with no error at all. -/
theorem mismatched_measurement_error_after_mutation (mdl : EKFModel)
    (s : EKFState) (z : List ℚ) (f0 h0 : NPArray → NPArray)
    (hf : mdl.f = some f0) (hh : mdl.h = some h0)
    (a1 a2 Ppre t1 b1 b2 S Sinv G : NPArray)
    (h1 : npDot s.F s.P_post = .ok a1)
    (h2 : npDot a1 (npTranspose s.F) = .ok a2)
    (h3 : npAdd a2 s.Q = .ok Ppre)
    (h4 : npDot Ppre (npTranspose s.H) = .ok t1)
    (h5 : npDot s.H Ppre = .ok b1)
    (h6 : npDot b1 (npTranspose s.H) = .ok b2)
    (h7 : npAdd b2 s.R = .ok S)
    (h8 : npInv S = some Sinv)
    (h9 : npDot t1 Sinv = .ok G)
    (hz1 : z.length ≠ 1)
    (hh1 : rowsOf (h0 (f0 s.x)) ≠ 1)
    (hzm : z.length ≠ rowsOf (h0 (f0 s.x))) :
    EKF_step mdl s z =
      .err { s with x := f0 s.x, P_pre := some Ppre, P_post := npCopy Ppre }
        .valueError := by
  have hinv : npInvert S = .ok Sinv := by
    unfold npInvert
    rw [h8]
  have hsub : npSub (npFromTuple z) (h0 (f0 s.x)) = .error .valueError := by
    apply npSub_rows_mismatch
    · rw [rowsOf_npFromTuple]
      exact hzm
    · rw [rowsOf_npFromTuple]
      exact hz1
    · exact hh1
  unfold EKF_step
  rw [hf]
  dsimp only
  rw [h1]
  dsimp only
  rw [h2]
  dsimp only
  rw [h3]
  dsimp only
  rw [h4]
  dsimp only
  rw [h5]
  dsimp only
  rw [h6]
  dsimp only
  rw [h7]
  dsimp only
  rw [hinv]
  dsimp only
  rw [h9]
  dsimp only
  rw [hh]
  dsimp only
  rw [hsub]

/-- Witness for C3: the m = 2 filter stepped with a 3-element measurement
    raises the shape error only at the innovation subtraction, with the
    predict-phase mutations already applied. -/
theorem mismatched_measurement_error_after_mutation_witness :
    EKF_step mdlTwoObs sTwoObs [5, 5, 5] =
      .err { sTwoObs with x := [[0]], P_pre := some [[1]], P_post := npCopy [[1]] }
        .valueError := by
  have e1 : npDot sTwoObs.F sTwoObs.P_post = .ok [[1]] := by
    norm_num [npDot, sTwoObs, mulT, mkMat, rowsOf, colsOf, entry, List.range_succ]
  have e2 : npDot [[1]] (npTranspose sTwoObs.F) = .ok [[1]] := by
    norm_num [npDot, sTwoObs, mulT, npTranspose, mkMat, rowsOf, colsOf, entry,
      List.range_succ]
  have e3 : npAdd [[1]] sTwoObs.Q = .ok [[1]] := by
    norm_num [npAdd, sTwoObs, ewiseB, bAxis, bidx, mkMat, rowsOf, colsOf, entry,
      List.range_succ]
  have e4 : npDot [[1]] (npTranspose sTwoObs.H) = .ok [[1, 1]] := by
    norm_num [npDot, sTwoObs, mulT, npTranspose, mkMat, rowsOf, colsOf, entry,
      List.range_succ]
  have e5 : npDot sTwoObs.H [[1]] = .ok [[1], [1]] := by
    norm_num [npDot, sTwoObs, mulT, mkMat, rowsOf, colsOf, entry, List.range_succ]
  have e6 : npDot [[1], [1]] (npTranspose sTwoObs.H) = .ok [[1, 1], [1, 1]] := by
    norm_num [npDot, sTwoObs, mulT, npTranspose, mkMat, rowsOf, colsOf, entry,
      List.range_succ]
  have e7 : npAdd [[1, 1], [1, 1]] sTwoObs.R = .ok [[2, 1], [1, 2]] := by
    norm_num [npAdd, sTwoObs, ewiseB, bAxis, bidx, mkMat, rowsOf, colsOf, entry,
      List.range_succ]
  have e8 : npInv [[2, 1], [1, 2]] = some [[2/3, -1/3], [-1/3, 2/3]] := by
    norm_num [npInv, detL, minorM, dropCol, mkMat, rowsOf, colsOf, entry, List.range_succ]
  have e9 : npDot [[1, 1]] [[2/3, -1/3], [-1/3, 2/3]] = .ok [[1/3, 1/3]] := by
    norm_num [npDot, mulT, mkMat, rowsOf, colsOf, entry, List.range_succ]
  have := mismatched_measurement_error_after_mutation mdlTwoObs sTwoObs [5, 5, 5]
    (fun v => v) (fun v => [[entry v 0 0], [entry v 0 0]]) rfl rfl
    [[1]] [[1]] [[1]] [[1, 1]] [[1], [1]] [[1, 1], [1, 1]] [[2, 1], [1, 2]]
    [[2/3, -1/3], [-1/3, 2/3]] [[1/3, 1/3]]
    e1 e2 e3 e4 e5 e6 e7 e8 e9 (by decide) (by decide) (by decide)
  exact this

/-! ## Claim C1 — step refines the specified predict/update recursion -/

/-- **C1**: for a filter with all four callbacks supplied and well-shaped
    state and callback outputs, `step(z)` with `len(z) = m` performs exactly
    the five specified effects in order — `x ← f(x)`;
    `P_pre ← F·P_post·Fᵗ + Q` with `P_post ← copy(P_pre)`;
    `S ← H·P_pre·Hᵗ + R` and `G ← P_pre·Hᵗ·S⁻¹`;
    `x ← x + G·(z − h(x))` with `h` evaluated at the already-predicted
    state; `P_post ← (I − G·H)·P_pre` — and returns the updated `x` as the
    flat sequence of its n entries: the embedded `EKF_step` produces
    exactly the state and return value prescribed by `stepSpec`, the
    verbatim transcription of the specification's five effects. -/
theorem step_refines_spec (mdl : EKFModel) (s : EKFState) (z : List ℚ)
    (n m : Nat) (hn : 0 < n) (hm : 0 < m)
    (f0 gF0 h0 gH0 : NPArray → NPArray)
    (hf : mdl.f = some f0) (hgF : mdl.getF = some gF0)
    (hh : mdl.h = some h0) (hgH : mdl.getH = some gH0)
    (hxr : rowsOf s.x = n) (hxc : colsOf s.x = 1)
    (hFr : rowsOf s.F = n) (hFc : colsOf s.F = n)
    (hHr : rowsOf s.H = m) (hHc : colsOf s.H = n)
    (hQr : rowsOf s.Q = n) (hQc : colsOf s.Q = n)
    (hRr : rowsOf s.R = m) (hRc : colsOf s.R = m)
    (hIr : rowsOf s.I = n) (hIc : colsOf s.I = n)
    (hPr : rowsOf s.P_post = n) (hPc : colsOf s.P_post = n)
    (hfr : rowsOf (f0 s.x) = n) (hfc : colsOf (f0 s.x) = 1)
    (hhr : rowsOf (h0 (f0 s.x)) = m) (hhc : colsOf (h0 (f0 s.x)) = 1)
    (hz : z.length = m)
    (x2 Ppre Ppost2 : NPArray) (ret : List ℚ)
    (hspec : stepSpec f0 h0 s.F s.H s.Q s.R s.I s.x s.P_post z
      = some (x2, Ppre, Ppost2, ret)) :
    EKF_step mdl s z = .ok { s with x := x2, P_pre := some Ppre, P_post := Ppost2 } ret := by
  have hSSr : rowsOf (addT (mulT (mulT s.H
      (addT (mulT (mulT s.F s.P_post) (npTranspose s.F)) s.Q))
      (npTranspose s.H)) s.R) = m := by
    rw [rowsOf_addT, rowsOf_mulT, rowsOf_mulT, hHr]
  simp only [stepSpec] at hspec
  split at hspec
  · exact absurd hspec (by simp)
  rename_i Sinv hSinv
  obtain ⟨hSsq, hSform⟩ := npInv_some_inv _ _ hSinv
  have hS0 : 0 < rowsOf (addT (mulT (mulT s.H
      (addT (mulT (mulT s.F s.P_post) (npTranspose s.F)) s.Q))
      (npTranspose s.H)) s.R) := by
    rw [hSSr]
    exact hm
  have hSrow : rowsOf Sinv = m := by
    rw [hSform, rowsOf_mkMat]
    exact hSSr
  have hScol : colsOf Sinv = m := by
    rw [hSform, colsOf_mkMat _ _ _ hS0]
    exact hSSr
  have hinvert : npInvert (addT (mulT (mulT s.H
      (addT (mulT (mulT s.F s.P_post) (npTranspose s.F)) s.Q))
      (npTranspose s.H)) s.R) = .ok Sinv := by
    unfold npInvert
    rw [hSinv]
  cases hspec
  simp only [EKF_step, hf, hh, hinvert, npDot_eq, npAdd_eq_addT, npSub_eq_subT,
    rowsOf_mulT, rowsOf_addT, rowsOf_subT, rowsOf_npTranspose, rowsOf_npFromTuple,
    colsOf_mulT, colsOf_addT, colsOf_subT, colsOf_npTranspose, colsOf_npFromTuple,
    hSrow, hScol, hFr, hFc, hHr, hHc, hQr, hQc, hRr, hRc, hIr, hIc, hPr, hPc,
    hfr, hfc, hhr, hhc, hz, hn, hm, npCopy]

set_option maxHeartbeats 1600000 in
/-- Witness for C1: the scalar filter stepped with the measurement `[1]`. -/
theorem step_refines_spec_witness :
    EKF_step mdlScalar sScalar [1] =
      .ok { sScalar with x := [[1/2]], P_pre := some [[1]], P_post := [[1/2]] }
        [1/2] := by
  refine step_refines_spec mdlScalar sScalar [1] 1 1 ?_ ?_
    (fun v => v) (fun _ => [[1]]) (fun v => v) (fun _ => [[1]])
    rfl rfl rfl rfl
    ?_ ?_ ?_ ?_ ?_ ?_ ?_ ?_ ?_ ?_ ?_ ?_ ?_ ?_ ?_ ?_ ?_ ?_ ?_
    [[1/2]] [[1]] [[1/2]] [1/2] ?_
  all_goals first
  | decide
  | norm_num [stepSpec, mulT, addT, subT, npTranspose, npInv, detL, minorM,
      dropCol, mkMat, npFromTuple, npAsarray, npCopy, sScalar, rowsOf, colsOf,
      entry, List.range_succ]

/-! ## Claim C7 — shape invariants of reachable states -/

theorem colsOf_npFromTuple_le_one (t : List ℚ) : colsOf (npFromTuple t) ≤ 1 := by
  cases t with
  | nil => decide
  | cons a rest =>
    rw [colsOf_npFromTuple (a :: rest) (by simp)]

/-- All shape facts about a filter state for dimensions `n`, `m`. -/
def ShapeOK (n m : Nat) (s : EKFState) : Prop :=
  rowsOf s.x = n ∧ colsOf s.x = 1 ∧
  rowsOf s.P_post = n ∧ colsOf s.P_post = n ∧
  rowsOf s.F = n ∧ colsOf s.F = n ∧
  rowsOf s.H = m ∧ colsOf s.H = n ∧
  rowsOf s.Q = n ∧ colsOf s.Q = n ∧
  rowsOf s.R = m ∧ colsOf s.R = m ∧
  rowsOf s.I = n ∧ colsOf s.I = n

/-- States of a filter reachable from its construction by successful steps. -/
inductive ReachableEKF (mdl : EKFModel) (n m : Nat) (p q r : ℚ) : EKFState → Prop where
  | init (s : EKFState) (tr : List EKFCall) :
      EKF_init mdl n m p q r = .ok (s, tr) → ReachableEKF mdl n m p q r s
  | step (s s' : EKFState) (z ret : List ℚ) :
      ReachableEKF mdl n m p q r s → EKF_step mdl s z = .ok s' ret →
      ReachableEKF mdl n m p q r s'

theorem ShapeOK_init (mdl : EKFModel) (n m : Nat) (p q r : ℚ)
    (hn : 0 < n) (hm : 0 < m) (gF0 gH0 : NPArray → NPArray)
    (hgF : mdl.getF = some gF0) (hgH : mdl.getH = some gH0)
    (hgFr : ∀ v, rowsOf (gF0 v) = n) (hgFc : ∀ v, colsOf (gF0 v) = n)
    (hgHr : ∀ v, rowsOf (gH0 v) = m) (hgHc : ∀ v, colsOf (gH0 v) = n)
    (s : EKFState) (tr : List EKFCall)
    (hinit : EKF_init mdl n m p q r = .ok (s, tr)) : ShapeOK n m s := by
  unfold EKF_init at hinit
  rw [hgF, hgH] at hinit
  dsimp only at hinit
  injection hinit with h1
  injection h1 with hs htr
  subst hs
  unfold ShapeOK
  dsimp only
  refine ⟨rowsOf_npZeros n, colsOf_npZeros n hn,
    (diag_shape_entries n p hn).1, (diag_shape_entries n p hn).2.1,
    hgFr _, hgFc _, hgHr _, hgHc _,
    (diag_shape_entries n q hn).1, (diag_shape_entries n q hn).2.1,
    (diag_shape_entries m r hm).1, (diag_shape_entries m r hm).2.1,
    rowsOf_npEye n 0, ?_⟩
  rw [colsOf_npEye n 0 hn]
  simp

set_option maxHeartbeats 3200000 in
theorem ShapeOK_step (mdl : EKFModel) (n m : Nat)
    (hn : 0 < n) (hm : 0 < m) (f0 h0 : NPArray → NPArray)
    (hf : mdl.f = some f0) (hh : mdl.h = some h0)
    (hfr : ∀ v, rowsOf (f0 v) = n) (hfc : ∀ v, colsOf (f0 v) = 1)
    (hhr : ∀ v, rowsOf (h0 v) = m) (hhc : ∀ v, colsOf (h0 v) = 1)
    (s s' : EKFState) (z ret : List ℚ)
    (hs : ShapeOK n m s) (h : EKF_step mdl s z = .ok s' ret) :
    ShapeOK n m s' := by
  obtain ⟨hxr, hxc, hPr, hPc, hFr, hFc, hHr, hHc, hQr, hQc, hRr, hRc, hIr, hIc⟩ := hs
  unfold EKF_step at h
  rw [hf, hh] at h
  dsimp only at h
  split at h
  · exact StepResult.noConfusion h
  rename_i a1 hd1
  split at h
  · exact StepResult.noConfusion h
  rename_i a2 hd2
  split at h
  · exact StepResult.noConfusion h
  rename_i Ppre hd3
  split at h
  · exact StepResult.noConfusion h
  rename_i t1 hd4
  split at h
  · exact StepResult.noConfusion h
  rename_i b1 hd5
  split at h
  · exact StepResult.noConfusion h
  rename_i b2 hd6
  split at h
  · exact StepResult.noConfusion h
  rename_i S hd7
  split at h
  · exact StepResult.noConfusion h
  rename_i Sinv hd8
  split at h
  · exact StepResult.noConfusion h
  rename_i G hd9
  split at h
  · exact StepResult.noConfusion h
  rename_i innov hd10
  split at h
  · exact StepResult.noConfusion h
  rename_i corr hd11
  split at h
  · exact StepResult.noConfusion h
  rename_i x2 hd12
  split at h
  · exact StepResult.noConfusion h
  rename_i gh hd13
  split at h
  · exact StepResult.noConfusion h
  rename_i igh hd14
  split at h
  · exact StepResult.noConfusion h
  rename_i Pp2 hd15
  injection h with h1 h2
  subst h1
  obtain ⟨hc1, he1⟩ := npDot_ok_inv _ _ _ hd1
  subst he1
  obtain ⟨hc2, he2⟩ := npDot_ok_inv _ _ _ hd2
  subst he2
  obtain ⟨Rr3, Cc3, hb3r, hb3c, he3⟩ := npAdd_ok_inv _ _ _ hd3
  subst he3
  obtain ⟨hR3, _⟩ := bAxis_some_inv _ _ _ hb3r
  obtain ⟨hC3, _⟩ := bAxis_some_inv _ _ _ hb3c
  subst hR3
  subst hC3
  obtain ⟨hc4, he4⟩ := npDot_ok_inv _ _ _ hd4
  subst he4
  obtain ⟨hc5, he5⟩ := npDot_ok_inv _ _ _ hd5
  subst he5
  obtain ⟨hc6, he6⟩ := npDot_ok_inv _ _ _ hd6
  subst he6
  obtain ⟨Rr7, Cc7, hb7r, hb7c, he7⟩ := npAdd_ok_inv _ _ _ hd7
  subst he7
  obtain ⟨hR7, _⟩ := bAxis_some_inv _ _ _ hb7r
  obtain ⟨hC7, _⟩ := bAxis_some_inv _ _ _ hb7c
  subst hR7
  subst hC7
  have hd8' := npInvert_ok_inv _ _ hd8
  obtain ⟨hSsq, he8⟩ := npInv_some_inv _ _ hd8'
  subst he8
  obtain ⟨hc9, he9⟩ := npDot_ok_inv _ _ _ hd9
  subst he9
  obtain ⟨Rr10, Cc10, hb10r, hb10c, he10⟩ := npSub_ok_inv _ _ _ hd10
  subst he10
  obtain ⟨hR10, _⟩ := bAxis_some_inv _ _ _ hb10r
  obtain ⟨hC10, _⟩ := bAxis_some_inv _ _ _ hb10c
  subst hR10
  subst hC10
  obtain ⟨hc11, he11⟩ := npDot_ok_inv _ _ _ hd11
  subst he11
  obtain ⟨Rr12, Cc12, hb12r, hb12c, he12⟩ := npAdd_ok_inv _ _ _ hd12
  subst he12
  obtain ⟨hR12, _⟩ := bAxis_some_inv _ _ _ hb12r
  obtain ⟨hC12, _⟩ := bAxis_some_inv _ _ _ hb12c
  subst hR12
  subst hC12
  obtain ⟨hc13, he13⟩ := npDot_ok_inv _ _ _ hd13
  subst he13
  obtain ⟨Rr14, Cc14, hb14r, hb14c, he14⟩ := npSub_ok_inv _ _ _ hd14
  subst he14
  obtain ⟨hR14, _⟩ := bAxis_some_inv _ _ _ hb14r
  obtain ⟨hC14, _⟩ := bAxis_some_inv _ _ _ hb14c
  subst hR14
  subst hC14
  obtain ⟨hc15, he15⟩ := npDot_ok_inv _ _ _ hd15
  subst he15
  have hmaxinnov : 0 < max z.length m :=
    Nat.lt_of_lt_of_le hm (Nat.le_max_right _ _)
  have hinnovcols : max (colsOf (npFromTuple z)) 1 = 1 :=
    Nat.max_eq_right (colsOf_npFromTuple_le_one z)
  unfold ShapeOK
  dsimp only
  simp only [rowsOf_mulT, rowsOf_addT, rowsOf_subT, rowsOf_ewiseB, rowsOf_mkMat,
    rowsOf_npTranspose, rowsOf_npFromTuple,
    colsOf_mulT, colsOf_addT, colsOf_subT, colsOf_npTranspose, colsOf_npFromTuple,
    colsOf_ewiseB, colsOf_mkMat,
    hfr, hfc, hhr, hhc, hFr, hFc, hHr, hHc, hQr, hQc, hRr, hRc, hIr, hIc, hPr, hPc,
    Nat.max_self, hn, hm, hmaxinnov, hinnovcols]
  simp

/-- **C7**: for every filter constructed with n, m ≥ 1 whose callbacks
    return results of the contracted shapes (`f`: n×1 state, `getF`: n×n,
    `h`: m×1 prediction, `getH`: m×n), after every successful `step` call —
    starting from construction and through any number of successful steps —
    the state `x` has length n (an n×1 column) and `P_post` is n×n. -/
theorem reachable_shape_invariant (mdl : EKFModel) (n m : Nat) (p q r : ℚ)
    (hn : 0 < n) (hm : 0 < m)
    (f0 gF0 h0 gH0 : NPArray → NPArray)
    (hf : mdl.f = some f0) (hgF : mdl.getF = some gF0)
    (hh : mdl.h = some h0) (hgH : mdl.getH = some gH0)
    (hfr : ∀ v, rowsOf (f0 v) = n) (hfc : ∀ v, colsOf (f0 v) = 1)
    (hgFr : ∀ v, rowsOf (gF0 v) = n) (hgFc : ∀ v, colsOf (gF0 v) = n)
    (hhr : ∀ v, rowsOf (h0 v) = m) (hhc : ∀ v, colsOf (h0 v) = 1)
    (hgHr : ∀ v, rowsOf (gH0 v) = m) (hgHc : ∀ v, colsOf (gH0 v) = n)
    (s : EKFState) (hreach : ReachableEKF mdl n m p q r s)
    (z : List ℚ) (s' : EKFState) (ret : List ℚ)
    (hstep : EKF_step mdl s z = .ok s' ret) :
    rowsOf s'.x = n ∧ colsOf s'.x = 1 ∧
    rowsOf s'.P_post = n ∧ colsOf s'.P_post = n := by
  have hshape : ShapeOK n m s := by
    clear hstep
    induction hreach with
    | init s0 tr hi =>
      exact ShapeOK_init mdl n m p q r hn hm gF0 gH0 hgF hgH hgFr hgFc hgHr hgHc s0 tr hi
    | step sa sb zz rr hra hsb ih =>
      exact ShapeOK_step mdl n m hn hm f0 h0 hf hh hfr hfc hhr hhc sa sb zz rr ih hsb
  have h2 := ShapeOK_step mdl n m hn hm f0 h0 hf hh hfr hfc hhr hhc s s' z ret hshape hstep
  unfold ShapeOK at h2
  exact ⟨h2.1, h2.2.1, h2.2.2.1, h2.2.2.2.1⟩

/-- Witness for C7: the constant-callback scalar filter, one step after
    construction. -/
theorem reachable_shape_invariant_witness :
    rowsOf (⟨[[0]], some [[2]], [[2/3]], [[1]], [[1]], [[1]], [[1]], [[1]]⟩ : EKFState).x
        = 1 ∧
    colsOf (⟨[[0]], some [[2]], [[2/3]], [[1]], [[1]], [[1]], [[1]], [[1]]⟩ : EKFState).x
        = 1 ∧
    rowsOf (⟨[[0]], some [[2]], [[2/3]], [[1]], [[1]], [[1]], [[1]], [[1]]⟩
        : EKFState).P_post = 1 ∧
    colsOf (⟨[[0]], some [[2]], [[2/3]], [[1]], [[1]], [[1]], [[1]], [[1]]⟩
        : EKFState).P_post = 1 := by
  refine reachable_shape_invariant mdlConst 1 1 1 1 1 (by decide) (by decide)
    (fun _ => [[0]]) (fun _ => [[1]]) (fun _ => [[0]]) (fun _ => [[1]])
    rfl rfl rfl rfl
    ?_ ?_ ?_ ?_ ?_ ?_ ?_ ?_
    ⟨[[0]], none, [[1]], [[1]], [[1]], [[1]], [[1]], [[1]]⟩
    (ReachableEKF.init _ [.callGetF, .callGetH]
      (by norm_num [EKF_init, mdlConst, npZeros, npSmul, npEye, mkMat, List.range_succ]))
    [0] ⟨[[0]], some [[2]], [[2/3]], [[1]], [[1]], [[1]], [[1]], [[1]]⟩ [0]
    (by norm_num [EKF_step, mdlConst, npDot, npAdd, npSub, npInvert, npInv, detL,
      minorM, dropCol, mulT, ewiseB, bAxis, bidx, mkMat, npTranspose, npCopy,
      npFromTuple, npAsarray, rowsOf, colsOf, entry, List.range_succ])
  all_goals intro v
  all_goals rfl

/-! ## Claim C8 — covariance monotonicity of the stationary scalar filter -/

/-- The filter state after a `step` call, whether or not it succeeded
    (Python mutations persist either way). -/
def stepState (mdl : EKFModel) (z : List ℚ) (s : EKFState) : EKFState :=
  match EKF_step mdl s z with
  | .ok s' _ => s'
  | .err s' _ => s'

/-- The scalar identity filter constructed with `(pval, qval, rval) =
    (p, 0, rv)` and stepped `k` times with the constant measurement `zv`. -/
def scalarSeq (p rv zv : ℚ) : ℕ → EKFState
  | 0 =>
    match EKF_init mdlScalar 1 1 p 0 rv with
    | .ok (s, _) => s
    | .error _ => ⟨[], none, [], [], [], [], [], []⟩
  | k + 1 => stepState mdlScalar [zv] (scalarSeq p rv zv k)

/-- The scalar covariance recursion `P ← rv·P/(P + rv)` produced by one
    filter step with `F = H = 1`, `Q = 0`, `R = rv`. -/
def pSeq (p rv : ℚ) : ℕ → ℚ
  | 0 => p
  | k + 1 => rv * pSeq p rv k / (pSeq p rv k + rv)

/-- Symbolic evaluation of one scalar step. -/
theorem scalarStep (a P rv zv : ℚ) (w : Option NPArray) (hPr : P + rv ≠ 0) :
    EKF_step mdlScalar ⟨[[a]], w, [[P]], [[1]], [[1]], [[0]], [[rv]], [[1]]⟩ [zv] =
      .ok ⟨[[a + P / (P + rv) * (zv - a)]], some [[P]], [[rv * P / (P + rv)]],
           [[1]], [[1]], [[0]], [[rv]], [[1]]⟩ [a + P / (P + rv) * (zv - a)] := by
  norm_num [EKF_step, mdlScalar, npDot, npAdd, npSub, npInvert, npInv, detL, minorM,
    dropCol, mulT, ewiseB, bAxis, bidx, mkMat, npTranspose, npCopy, npFromTuple,
    npAsarray, rowsOf, colsOf, entry, List.range_succ, hPr]
  constructor
  · field_simp
  · field_simp

theorem pSeq_pos (p rv : ℚ) (hp : 0 < p) (hr : 0 < rv) : ∀ k, 0 < pSeq p rv k := by
  intro k
  induction k with
  | zero => exact hp
  | succ k ih => exact div_pos (mul_pos hr ih) (add_pos ih hr)

theorem scalarSeq_zero (p rv zv : ℚ) :
    scalarSeq p rv zv 0 = ⟨[[0]], none, [[p]], [[1]], [[1]], [[0]], [[rv]], [[1]]⟩ := by
  norm_num [scalarSeq, EKF_init, mdlScalar, npZeros, npSmul, npEye, mkMat,
    List.range_succ]

theorem scalarSeq_form (p rv zv : ℚ) (hp : 0 < p) (hr : 0 < rv) :
    ∀ k, ∃ a w, scalarSeq p rv zv k =
      ⟨[[a]], w, [[pSeq p rv k]], [[1]], [[1]], [[0]], [[rv]], [[1]]⟩ := by
  intro k
  induction k with
  | zero => exact ⟨0, none, by rw [scalarSeq_zero, pSeq]⟩
  | succ k ih =>
    obtain ⟨a, w, hk⟩ := ih
    have hne : pSeq p rv k + rv ≠ 0 := (add_pos (pSeq_pos p rv hp hr k) hr).ne'
    refine ⟨a + pSeq p rv k / (pSeq p rv k + rv) * (zv - a), some [[pSeq p rv k]], ?_⟩
    show stepState mdlScalar [zv] (scalarSeq p rv zv k) = _
    rw [hk, stepState, scalarStep a (pSeq p rv k) rv zv w hne]
    dsimp only
    rw [pSeq]

theorem entry_single (q : ℚ) : entry [[q]] 0 0 = q := by
  simp [entry]

theorem scalarSeq_P (p rv zv : ℚ) (hp : 0 < p) (hr : 0 < rv) (k : ℕ) :
    entry (scalarSeq p rv zv k).P_post 0 0 = pSeq p rv k := by
  obtain ⟨a, w, hk⟩ := scalarSeq_form p rv zv hp hr k
  rw [hk]
  exact entry_single _

theorem pSeq_closed (p rv : ℚ) (hp : 0 < p) (hr : 0 < rv) :
    ∀ k : ℕ, pSeq p rv k = p * rv / (rv + k * p) := by
  intro k
  induction k with
  | zero =>
    rw [pSeq]
    field_simp
  | succ k ih =>
    have h1' : (rv + (k : ℚ) * p) ≠ 0 := by positivity
    have h2' : (rv + ((k : ℚ) + 1) * p) ≠ 0 := by positivity
    rw [pSeq, ih]
    push_cast
    field_simp
    ring

theorem pSeq_antitone (p rv : ℚ) (hp : 0 < p) (hr : 0 < rv) (k : ℕ) :
    pSeq p rv (k + 1) ≤ pSeq p rv k := by
  have hP := pSeq_pos p rv hp hr k
  rw [pSeq, div_le_iff (add_pos hP hr)]
  nlinarith [sq_nonneg (pSeq p rv k)]

theorem pSeq_tendsto_zero (p rv : ℚ) (hp : 0 < p) (hr : 0 < rv) :
    ∀ ε : ℚ, 0 < ε → ∃ K : ℕ, ∀ k, K ≤ k → pSeq p rv k < ε := by
  intro ε hε
  refine ⟨⌈rv / ε⌉₊, fun k hk => ?_⟩
  have hkq : rv / ε ≤ (k : ℚ) := by
    calc rv / ε ≤ (⌈rv / ε⌉₊ : ℚ) := Nat.le_ceil _
    _ ≤ (k : ℚ) := by exact_mod_cast hk
  have h2 : rv ≤ ε * k := by
    rw [div_le_iff hε] at hkq
    linarith [hkq]
  rw [pSeq_closed p rv hp hr k]
  have hd : (0 : ℚ) < rv + (k : ℚ) * p := by positivity
  rw [div_lt_iff hd]
  nlinarith [mul_le_mul_of_nonneg_right h2 hp.le, mul_pos hε hr]

/-- **C8**: for the scalar filter (n = m = 1) with identity `f` and `h`,
    `F = H = 1`, `qval = 0` and positive `pval`, `rval`, every `step` call
    with the constant measurement `zv` succeeds, and the resulting sequence
    of `P_post` values is monotonically non-increasing and converges toward
    0 as the number of steps grows. -/
theorem scalar_covariance_monotone (p rv zv : ℚ) (hp : 0 < p) (hr : 0 < rv) :
    (∀ k, ∃ s' ret, EKF_step mdlScalar (scalarSeq p rv zv k) [zv] = .ok s' ret) ∧
    (∀ k, entry (scalarSeq p rv zv (k + 1)).P_post 0 0
        ≤ entry (scalarSeq p rv zv k).P_post 0 0) ∧
    (∀ ε : ℚ, 0 < ε → ∃ K : ℕ, ∀ k, K ≤ k →
        entry (scalarSeq p rv zv k).P_post 0 0 < ε) := by
  refine ⟨?_, ?_, ?_⟩
  · intro k
    obtain ⟨a, w, hk⟩ := scalarSeq_form p rv zv hp hr k
    have hne : pSeq p rv k + rv ≠ 0 := (add_pos (pSeq_pos p rv hp hr k) hr).ne'
    exact ⟨_, _, by rw [hk, scalarStep a (pSeq p rv k) rv zv w hne]⟩
  · intro k
    rw [scalarSeq_P p rv zv hp hr, scalarSeq_P p rv zv hp hr]
    exact pSeq_antitone p rv hp hr k
  · intro ε hε
    obtain ⟨K, hK⟩ := pSeq_tendsto_zero p rv hp hr ε hε
    refine ⟨K, fun k hk => ?_⟩
    rw [scalarSeq_P p rv zv hp hr]
    exact hK k hk

/-- Witness for C8 at `pval = rval = 1` and the constant measurement 0. -/
theorem scalar_covariance_monotone_witness :
    (∀ k, ∃ s' ret, EKF_step mdlScalar (scalarSeq 1 1 0 k) [0] = .ok s' ret) ∧
    (∀ k, entry (scalarSeq 1 1 0 (k + 1)).P_post 0 0
        ≤ entry (scalarSeq 1 1 0 k).P_post 0 0) ∧
    (∀ ε : ℚ, 0 < ε → ∃ K : ℕ, ∀ k, K ≤ k →
        entry (scalarSeq 1 1 0 k).P_post 0 0 < ε) :=
  scalar_covariance_monotone 1 1 0 (by norm_num) (by norm_num)
